import Mathlib

/-!
Verification development for the maglev-go load-balancing core.

The Go sources are shallowly embedded below:
* `tuple_hash` (5-tuple fingerprint) — `tupleHashGo` over a bit-level model
  of IEEE CRC-32 (`crc32`), with `net.IP.To16` modelled by `to16`.
* `chash` (Maglev consistent hash) — the backend map as an association list
  with unique keys, the permutation walk `permAt` with the uint32 wrap of
  the Go arithmetic (`next` is `[]uint32`), the population loop `popLoop`
  with explicit fuel (each fuel unit is one inner-loop step or one restart
  of the outer `for {}` loop; the inner candidate search is bounded by
  `M`), and `chashAdd` / `chashRemove` / `chashHash` returning `none` when
  the loop does not reach its termination condition.
* `health_monitor` — `monAdd`, `monRemove`, and the per-probe evaluation;
  channel sends are modelled as emitted notification lists.

Byte strings (backend names in `chash`, hash inputs) are modelled as
`List Nat` of byte values.  Machine integers are `Nat`/`Int` with explicit
`% 2 ^ w` masking where the Go code can overflow.
-/

/-! ## IEEE CRC-32 (hash/crc32, reflected polynomial 0xEDB88320) -/

/-- One bit step of the reflected CRC-32 division. -/
def crc32Round (c : Nat) : Nat :=
  if c % 2 = 1 then (c / 2) ^^^ 0xEDB88320 else c / 2

/-- Fold one input byte into the CRC state (8 bit steps). -/
def crc32Byte (c b : Nat) : Nat :=
  crc32Round (crc32Round (crc32Round (crc32Round
    (crc32Round (crc32Round (crc32Round (crc32Round (c ^^^ b % 256))))))))

/-- `crc32.ChecksumIEEE`: CRC-32 of a byte string. -/
def crc32 (msg : List Nat) : Nat :=
  0xFFFFFFFF ^^^ msg.foldl crc32Byte 0xFFFFFFFF

/-! ## tuple_hash.Hash -/

/-- The IPv4-mapped IPv6 prefix `::ffff:` used by `net.IP.To16`. -/
def v4InV6Prefix : List Nat := [0, 0, 0, 0, 0, 0, 0, 0, 0, 0, 255, 255]

/-- `net.IP.To16`: a 4-byte address becomes IPv4-mapped IPv6, a 16-byte
address is returned unchanged, anything else yields the nil slice. -/
def to16 (ip : List Nat) : List Nat :=
  if ip.length = 4 then v4InV6Prefix ++ ip
  else if ip.length = 16 then ip
  else []

/-- `binary.BigEndian.PutUint16`: two big-endian bytes of a uint16. -/
def putUint16BE (p : Nat) : List Nat := [p % 65536 / 256, p % 256]

/-- The byte string fed to the CRC in `tuple_hash.Hash`, in write order:
src IP (16-byte form), dst IP (16-byte form), src port, dst port, proto. -/
def tupleBytes (srcIP dstIP : List Nat) (srcPort dstPort proto : Nat) : List Nat :=
  to16 srcIP ++ to16 dstIP ++ putUint16BE srcPort ++ putUint16BE dstPort ++ [proto % 256]

/-- `hash/crc32` digest state after `NewIEEE` (stored CRC is 0). -/
def digestInit : Nat := 0

/-- `digest.Write`: folds the bytes into the stored CRC.  The Go method
returns `(len(p), nil)` unconditionally — its error is always nil — so the
model returns `Except.ok` on every input. -/
def digestWrite (st : Nat) (bs : List Nat) : Except String Nat :=
  Except.ok (0xFFFFFFFF ^^^ bs.foldl crc32Byte (0xFFFFFFFF ^^^ st))

/-- `tuple_hash.Hash`: the five `hash.Write` calls followed by `Sum32`. -/
def tupleHashGo (srcIP dstIP : List Nat) (srcPort dstPort proto : Nat) :
    Except String Nat := do
  let st1 ← digestWrite digestInit (to16 srcIP)
  let st2 ← digestWrite st1 (to16 dstIP)
  let st3 ← digestWrite st2 (putUint16BE srcPort)
  let st4 ← digestWrite st3 (putUint16BE dstPort)
  let st5 ← digestWrite st4 [proto % 256]
  return st5

theorem xor_xor_cancel (a b : Nat) : a ^^^ (a ^^^ b) = b := by
  rw [← Nat.xor_assoc, Nat.xor_self, Nat.zero_xor]

/-- The incremental digest writes compose to the CRC of the concatenation. -/
theorem digestWrite_append (st : Nat) (as bs : List Nat) :
    (digestWrite st as).bind (fun st2 => digestWrite st2 bs) =
      digestWrite st (as ++ bs) := by
  simp [digestWrite, Except.bind, List.foldl_append, xor_xor_cancel]

/-- C10: the 5-tuple fingerprint is the IEEE CRC-32 of the 37-byte
concatenation of the 16-byte source IP, 16-byte destination IP, the two
big-endian port bytes each, and the protocol byte; the computation never
returns a non-nil error, equal tuples (up to `To16` normalization) give
equal hashes, and an IPv4 address hashes identically to its IPv4-mapped
IPv6 form. -/
theorem c10_tuple_fingerprint (s d : List Nat) (sp dp pr : Nat)
    (hs : s.length = 4 ∨ s.length = 16) (hd : d.length = 4 ∨ d.length = 16) :
    tupleHashGo s d sp dp pr = Except.ok (crc32 (tupleBytes s d sp dp pr)) ∧
    (tupleBytes s d sp dp pr).length = 37 ∧
    (∀ a b c e : Nat, tupleHashGo [a, b, c, e] d sp dp pr =
        tupleHashGo (v4InV6Prefix ++ [a, b, c, e]) d sp dp pr) ∧
    (∀ s2 d2 : List Nat, to16 s2 = to16 s → to16 d2 = to16 d →
        tupleHashGo s2 d2 sp dp pr = tupleHashGo s d sp dp pr) := by
  refine ⟨?_, ?_, ?_, ?_⟩
  · simp [tupleHashGo, digestWrite, digestInit, crc32, tupleBytes,
      List.foldl_append, xor_xor_cancel, Bind.bind, Except.bind,
      Pure.pure, Except.pure]
  · have h16 : ∀ ip : List Nat, ip.length = 4 ∨ ip.length = 16 →
        (to16 ip).length = 16 := by
      intro ip hip
      rcases hip with h4 | h6
      · simp [to16, h4, v4InV6Prefix]
      · simp [to16, h6]
    simp [tupleBytes, putUint16BE, h16 s hs, h16 d hd]
  · intro a b c e
    have : to16 [a, b, c, e] = to16 (v4InV6Prefix ++ [a, b, c, e]) := by
      simp [to16, v4InV6Prefix]
    simp only [tupleHashGo, this]
  · intro s2 d2 h1 h2
    simp only [tupleHashGo, h1, h2]

/-- Closed witness for `c10_tuple_fingerprint` at the concrete 5-tuple
`(1.2.3.4, 1000, 5.6.7.8, 80, 6)`. -/
theorem c10_tuple_fingerprint_witness :
    tupleHashGo [1, 2, 3, 4] [5, 6, 7, 8] 1000 80 6 =
      Except.ok (crc32 (tupleBytes [1, 2, 3, 4] [5, 6, 7, 8] 1000 80 6)) ∧
    (tupleBytes [1, 2, 3, 4] [5, 6, 7, 8] 1000 80 6).length = 37 ∧
    tupleHashGo [1, 2, 3, 4] [5, 6, 7, 8] 1000 80 6 =
      tupleHashGo ([0, 0, 0, 0, 0, 0, 0, 0, 0, 0, 255, 255] ++ [1, 2, 3, 4])
        [5, 6, 7, 8] 1000 80 6 := by
  have h := c10_tuple_fingerprint [1, 2, 3, 4] [5, 6, 7, 8] 1000 80 6
    (Or.inl rfl) (Or.inl rfl)
  exact ⟨h.1, h.2.1, by simpa [v4InV6Prefix] using h.2.2.1 1 2 3 4⟩

/-! ## chash: the Maglev consistent hash table

Backend names are byte strings, modelled as `List Nat`; the empty Go
string is `[]`.  The Go `map[string]recordType` is an association list
with unique keys (insertion order), which fixes a deterministic iteration
order for the model; `getBackendsAsSlice` sorts by `id` anyway. -/

/-- A backend name (Go string) as a list of byte values. -/
abbrev BName := List Nat

/-- The per-backend record stored in `consistentHashImpl.backends`. -/
structure BackendRec where
  id : Nat
  offset : Nat
  skip : Nat
deriving DecidableEq, Repr

/-- The byte string `"offset"`. -/
def offsetBytes : List Nat := [111, 102, 102, 115, 101, 116]

/-- The byte string `"skip"`. -/
def skipBytes : List Nat := [115, 107, 105, 112]

/-- The record computed by `consistentHashImpl.Add` for a name when the map
currently holds `curLen` entries: `id = len(c.backends)`,
`offset = crc32(name ++ "offset") mod M`,
`skip = crc32(name ++ "skip") mod (M-1) + 1`. -/
def mkRec (M curLen : Nat) (name : BName) : BackendRec :=
  ⟨curLen, crc32 (name ++ offsetBytes) % M, crc32 (name ++ skipBytes) % (M - 1) + 1⟩

/-- Go map assignment `m[k] = v`: overwrite if present, append if absent. -/
def setRec : List (BName × BackendRec) → BName → BackendRec → List (BName × BackendRec)
  | [], n, r => [(n, r)]
  | (k, v) :: rest, n, r =>
    if k = n then (k, r) :: rest else (k, v) :: setRec rest n r

/-- Go map lookup `m[k]`. -/
def lookupRec : List (BName × BackendRec) → BName → Option BackendRec
  | [], _ => none
  | (k, v) :: rest, n => if k = n then some v else lookupRec rest n

/-- Go map deletion `delete(m, k)`. -/
def removeKey : List (BName × BackendRec) → BName → List (BName × BackendRec)
  | [], _ => []
  | (k, v) :: rest, n =>
    if k = n then removeKey rest n else (k, v) :: removeKey rest n

/-- The mutation loop of `consistentHashImpl.Add`: every given name is
assigned a fresh record whose `id` is the map's cardinality at the moment
of the assignment (names already present are overwritten, not skipped). -/
def addNames (M : Nat) : List (BName × BackendRec) → List BName → List (BName × BackendRec)
  | bs, [] => bs
  | bs, n :: rest => addNames M (setRec bs n (mkRec M bs.length n)) rest

/-- The mutation loop of `consistentHashImpl.Remove`. -/
def removeNames (bs : List (BName × BackendRec)) (names : List BName) :
    List (BName × BackendRec) :=
  names.foldl removeKey bs

/-- Insert one entry into a list sorted by ascending `id`. -/
def insertById (p : BName × BackendRec) :
    List (BName × BackendRec) → List (BName × BackendRec)
  | [] => [p]
  | q :: rest => if p.2.id < q.2.id then p :: q :: rest else q :: insertById p rest

/-- `getBackendsAsSlice`: the backends sorted by ascending `id`
(insertion sort; Go uses `sort.Slice` with the same comparator). -/
def sortById : List (BName × BackendRec) → List (BName × BackendRec)
  | [] => []
  | p :: rest => insertById p (sortById rest)

/-- Reduction modulo 2^32: the wrap of Go's uint32 arithmetic. -/
def mask32 (x : Nat) : Nat := x % 4294967296

/-- `permutationAt`: the j-th candidate slot of a backend.  All Go
operands are uint32 (`offset`, `skip`, and `j` from the `next : []uint32`
array), so `j`, the product `j*skip` and the sum wrap modulo 2^32 before
the final `% M`. -/
def permAt (M : Nat) (r : BackendRec) (j : Nat) : Nat :=
  mask32 (r.offset + mask32 (mask32 j * r.skip)) % M

/-- State of the population loop of `computeLookupTable`: the `entry`
array (−1 = free), the `lookup` array (`""` = unassigned), the `next`
array, and the filled count `n`. -/
structure PopState where
  entry : List Int
  lookup : List BName
  next : List Nat
  n : Nat
deriving Repr

/-- The inner `for entry[candidate] >= 0` scan: the least `j2 ≥ j` whose
candidate slot is free, searched for at most `fuel` steps.  (Every slot
index produced by `permAt` is `< M = entry.length`, so the `getD` default
is never consulted.) -/
def findCand (M : Nat) (entry : List Int) (r : BackendRec) : Nat → Nat → Option Nat
  | _, 0 => none
  | j, fuel + 1 =>
    if 0 ≤ entry.getD (permAt M r j) (-1) then findCand M entry r (j + 1) fuel
    else some j

/-- The population loop of `computeLookupTable`.  One unit of fuel is one
iteration of the inner `for i` body (`B[i]? = some _`) or one restart of
the enclosing `for {}` loop (`B[i]? = none`); the candidate scan carries
its own bound `M` (the wrapped walk revisits the same slots with period at
most 2^32, and when it can reach no free slot at all — which happens on
reachable inputs, as proven below — the Go inner `for` spins forever and
no bound returns a candidate).  `none` means the Go loop
has not reached its `n == c.Size()` exit within `fuel` steps — in
particular, for `B = []` it returns `none` for every fuel, mirroring that
the Go loop never terminates there. -/
def popLoop (M : Nat) (B : List (BName × BackendRec)) :
    Nat → Nat → PopState → Option (List BName)
  | 0, _, _ => none
  | fuel + 1, i, s =>
    match B[i]? with
    | none => popLoop M B fuel 0 s
    | some p =>
      match findCand M s.entry p.2 (s.next.getD i 0) M with
      | none => none
      | some j =>
        let c := permAt M p.2 j
        let s2 : PopState :=
          ⟨s.entry.set c (Int.ofNat i), s.lookup.set c p.1,
           s.next.set i (j + 1), s.n + 1⟩
        if s2.n = M then some s2.lookup else popLoop M B fuel (i + 1) s2

/-- The arrays as (re-)initialized at the top of `computeLookupTable`. -/
def initPop (M nB : Nat) : PopState :=
  ⟨List.replicate M (-1), List.replicate M [], List.replicate nB 0, 0⟩

/-- `computeLookupTable` on a backend map: sort by `id`, then populate.
`none` means the population did not complete within the fuel. -/
def computeLookupTable (M : Nat) (bs : List (BName × BackendRec)) :
    Option (List BName) :=
  let B := sortById bs
  popLoop M B (2 * M + 1) 0 (initPop M B.length)

/-- The state of a `consistentHashImpl`. -/
structure CHash where
  size : Nat
  backends : List (BName × BackendRec)
  lookup : List BName
deriving Repr

/-- `NewConsistentHash`. -/
def newConsistentHash (size : Nat) : CHash := ⟨size, [], []⟩

/-- `consistentHashImpl.Add`: update the map, then recompute the lookup
table; `none` when the recomputation never terminates. -/
def chashAdd (c : CHash) (names : List BName) : Option CHash :=
  let bs := addNames c.size c.backends names
  (computeLookupTable c.size bs).map (fun lk => ⟨c.size, bs, lk⟩)

/-- `consistentHashImpl.Remove`: delete the names, then recompute the
lookup table; `none` when the recomputation never terminates. -/
def chashRemove (c : CHash) (names : List BName) : Option CHash :=
  let bs := removeNames c.backends names
  (computeLookupTable c.size bs).map (fun lk => ⟨c.size, bs, lk⟩)

/-- `consistentHashImpl.Hash`: empty backend set returns `""`; a stale
lookup (length ≠ M) is recomputed synchronously before serving; otherwise
serve `lookup[key mod M]` from the cached table. -/
def chashHash (c : CHash) (key : Nat) : Option BName :=
  if c.backends.length = 0 then some []
  else if c.lookup.length ≠ c.size then
    (computeLookupTable c.size c.backends).map (fun lk => lk.getD (key % c.size) [])
  else some (c.lookup.getD (key % c.size) [])

/-! ### C2: the population loop never terminates on an empty backend set -/

theorem popLoop_empty_none (M : Nat) :
    ∀ (fuel i : Nat) (s : PopState), popLoop M [] fuel i s = none := by
  intro fuel
  induction fuel with
  | zero => intro i s; rfl
  | succ fuel ih =>
    intro i s
    simp only [popLoop, List.getElem?_nil]
    exact ih 0 s

/-- C2 (refuted): when `Remove` leaves the backend set empty, the Maglev
population loop never reaches its termination condition (`n == M` is
unreachable because the inner loop body never executes), for any number of
steps; hence the triggered recomputation never returns.  The Go call to
`Remove` for the last backend therefore hangs forever. -/
theorem c2_remove_to_empty_diverges (c : CHash) (names : List BName)
    (h : removeNames c.backends names = []) :
    chashRemove c names = none ∧
    (∀ fuel i s, popLoop c.size [] fuel i s = none) := by
  refine ⟨?_, popLoop_empty_none c.size⟩
  simp [chashRemove, h, computeLookupTable, sortById, popLoop_empty_none]

/-- Closed witness for `c2_remove_to_empty_diverges`: removing the single
backend `"a"` from a size-5 table leaves the set empty and the
recomputation never returns. -/
theorem c2_remove_to_empty_diverges_witness :
    removeNames (CHash.backends ⟨5, [([97], ⟨0, 3, 2⟩)], []⟩) [[97]] = [] ∧
    chashRemove ⟨5, [([97], ⟨0, 3, 2⟩)], []⟩ [[97]] = none :=
  ⟨by decide,
   (c2_remove_to_empty_diverges ⟨5, [([97], ⟨0, 3, 2⟩)], []⟩ [[97]] (by decide)).1⟩

/-! ### C3: `Add` overwrites records; ids are reused after `Remove` -/

theorem lookupRec_setRec_self (bs : List (BName × BackendRec)) (x : BName)
    (r : BackendRec) : lookupRec (setRec bs x r) x = some r := by
  induction bs with
  | nil => simp [setRec, lookupRec]
  | cons p rest ih =>
    by_cases h : p.1 = x
    · simp [setRec, lookupRec, h]
    · simp [setRec, lookupRec, h, ih]

theorem lookupRec_setRec_ne (bs : List (BName × BackendRec)) (x y : BName)
    (r : BackendRec) (hxy : x ≠ y) :
    lookupRec (setRec bs x r) y = lookupRec bs y := by
  induction bs with
  | nil => simp [setRec, lookupRec, fun h => hxy h]
  | cons p rest ih =>
    by_cases h : p.1 = x
    · have hpy : ¬ p.1 = y := by rw [h]; exact hxy
      simp [setRec, lookupRec, h, hpy, hxy]
    · by_cases h2 : p.1 = y
      · have hyx : ¬ y = x := by intro hh; exact h (h2.trans hh)
        simp [setRec, lookupRec, h, h2, hyx]
      · simp [setRec, lookupRec, h, h2, ih]

/-- C3 (counterexample): with `M = 65537`, adding `"a"`, then `"b"`, then
re-adding `"a"` changes `"a"`'s record (`id` goes from 0 to 2), refuting
"an Add of a name already in the set leaves that backend's record
unchanged"; and adding `"a"`, `"b"`, removing `"a"`, then adding `"c"`
gives `"b"` and `"c"` the same `id` 1, refuting "ids are never reused even
after removal, and pairwise distinct among current backends". -/
theorem c3_counterexample :
    ((lookupRec (addNames 65537 [] [[97]]) [97]).map BackendRec.id = some 0) ∧
    ((lookupRec (addNames 65537 (addNames 65537 [] [[97], [98]]) [[97]])
        [97]).map BackendRec.id = some 2) ∧
    ((lookupRec (addNames 65537
        (removeNames (addNames 65537 [] [[97], [98]]) [[97]]) [[99]])
        [98]).map BackendRec.id = some 1) ∧
    ((lookupRec (addNames 65537
        (removeNames (addNames 65537 [] [[97], [98]]) [[97]]) [[99]])
        [99]).map BackendRec.id = some 1) := by
  refine ⟨?_, ?_, ?_, ?_⟩ <;> decide

/-- C3 (amended): `Add` assigns every given name — already present or
not — a freshly computed record whose `id` equals the map's cardinality at
the moment of that assignment (`len(c.backends)`), overwriting any
existing record; other names are untouched. -/
theorem c3_add_assigns_cardinality_id (M : Nat) (bs : List (BName × BackendRec))
    (x : BName) :
    lookupRec (addNames M bs [x]) x = some (mkRec M bs.length x) ∧
    (∀ y, y ≠ x → lookupRec (addNames M bs [x]) y = lookupRec bs y) ∧
    (∀ n ns, addNames M bs (n :: ns) = addNames M (setRec bs n (mkRec M bs.length n)) ns) := by
  refine ⟨?_, ?_, fun n ns => rfl⟩
  · simpa [addNames] using lookupRec_setRec_self bs x (mkRec M bs.length x)
  · intro y hy
    simpa [addNames] using lookupRec_setRec_ne bs x y (mkRec M bs.length x) (fun h => hy h.symm)

/-- Closed witness for `c3_add_assigns_cardinality_id`: re-adding `"a"` to
the two-element map `{a, b}` overwrites its record with `id = 2`. -/
theorem c3_add_assigns_cardinality_id_witness :
    lookupRec (addNames 65537 (addNames 65537 [] [[97], [98]]) [[97]]) [97] =
      some (mkRec 65537 2 [97]) ∧
    lookupRec (addNames 65537 (addNames 65537 [] [[97], [98]]) [[97]]) [98] =
      lookupRec (addNames 65537 [] [[97], [98]]) [98] := by
  have h := c3_add_assigns_cardinality_id 65537 (addNames 65537 [] [[97], [98]]) [97]
  exact ⟨by simpa using h.1, h.2.1 [98] (by decide)⟩

/-! ### C1: helper lemmas about the population arrays -/

/-- Number of assigned slots of the `entry` array. -/
def filled (entry : List Int) : Nat := entry.countP (fun v => decide (0 ≤ v))

theorem getD_set_self (l : List Int) (k : Nat) (v d : Int) (h : k < l.length) :
    (l.set k v).getD k d = v := by
  rw [List.getD_eq_getElem _ _ (by simpa using h), List.getElem_set_self]

theorem getD_set_self_names (l : List BName) (k : Nat) (v d : BName)
    (h : k < l.length) : (l.set k v).getD k d = v := by
  rw [List.getD_eq_getElem _ _ (by simpa using h), List.getElem_set_self]

theorem getD_set_ne (l : List Int) (k j : Nat) (v d : Int) (h : k ≠ j) :
    (l.set k v).getD j d = l.getD j d := by
  by_cases hj : j < l.length
  · rw [List.getD_eq_getElem _ _ (by simpa using hj), List.getD_eq_getElem _ _ hj,
      List.getElem_set_ne h]
  · rw [List.getD_eq_default _ _ (by simpa using Nat.le_of_not_lt hj),
      List.getD_eq_default _ _ (Nat.le_of_not_lt hj)]

theorem getD_set_ne_names (l : List BName) (k j : Nat) (v d : BName) (h : k ≠ j) :
    (l.set k v).getD j d = l.getD j d := by
  by_cases hj : j < l.length
  · rw [List.getD_eq_getElem _ _ (by simpa using hj), List.getD_eq_getElem _ _ hj,
      List.getElem_set_ne h]
  · rw [List.getD_eq_default _ _ (by simpa using Nat.le_of_not_lt hj),
      List.getD_eq_default _ _ (Nat.le_of_not_lt hj)]

/-- Assigning a free slot increments the filled count. -/
theorem filled_set_free (entry : List Int) (k : Nat) (v : Int)
    (hk : k < entry.length) (hfree : ¬ 0 ≤ entry.getD k (-1)) (hv : 0 ≤ v) :
    filled (entry.set k v) = filled entry + 1 := by
  induction entry generalizing k with
  | nil => simp at hk
  | cons a rest ih =>
    cases k with
    | zero =>
      have ha : ¬ 0 ≤ a := by simpa [List.getD] using hfree
      simp [filled, List.set, List.countP_cons, ha, hv]
    | succ k =>
      have hk2 : k < rest.length := by simpa using hk
      have hfree2 : ¬ 0 ≤ rest.getD k (-1) := by simpa [List.getD] using hfree
      have := ih k hk2 hfree2
      simp only [filled] at this ⊢
      simp [List.set, List.countP_cons, this]
      omega

/-- The candidate found by the inner scan points at a free slot. -/
theorem findCand_sound (M : Nat) (entry : List Int) (r : BackendRec) :
    ∀ fuel j j2, findCand M entry r j fuel = some j2 →
      ¬ 0 ≤ entry.getD (permAt M r j2) (-1) := by
  intro fuel
  induction fuel with
  | zero => intro j j2 h; simp [findCand] at h
  | succ fuel ih =>
    intro j j2 h
    rw [findCand] at h
    by_cases hc : 0 ≤ entry.getD (permAt M r j) (-1)
    · rw [if_pos hc] at h
      exact ih (j + 1) j2 h
    · rw [if_neg hc] at h
      cases h
      exact hc

/-- Unfolding of one step of the population loop. -/
theorem popLoop_succ (M : Nat) (B : List (BName × BackendRec)) (fuel i : Nat)
    (s : PopState) :
    popLoop M B (fuel + 1) i s =
      match B[i]? with
      | none => popLoop M B fuel 0 s
      | some p =>
        match findCand M s.entry p.2 (s.next.getD i 0) M with
        | none => none
        | some j =>
          let c := permAt M p.2 j
          let s2 : PopState :=
            ⟨s.entry.set c (Int.ofNat i), s.lookup.set c p.1,
             s.next.set i (j + 1), s.n + 1⟩
          if s2.n = M then some s2.lookup else popLoop M B fuel (i + 1) s2 := rfl

/-- Loop invariant of the population loop: array lengths are `M`, the
filled count matches `n`, and every assigned slot holds a member name. -/
def InvPop (M : Nat) (B : List (BName × BackendRec)) (s : PopState) : Prop :=
  s.entry.length = M ∧ s.lookup.length = M ∧ filled s.entry = s.n ∧
  ∀ k, k < M → 0 ≤ s.entry.getD k (-1) →
    ∃ p, p ∈ B ∧ s.lookup.getD k [] = p.1

/-- When the loop exits (`n = M`), every slot of `lookup` holds the name
of a current backend. -/
theorem full_lookup_mem (M : Nat) (B : List (BName × BackendRec)) (s : PopState)
    (hInv : InvPop M B s) (hfull : s.n = M) :
    ∀ x ∈ s.lookup, ∃ p, p ∈ B ∧ x = p.1 := by
  obtain ⟨hel, hll, hfc, hmem⟩ := hInv
  intro x hx
  obtain ⟨k, hkl, hxk⟩ := List.mem_iff_getElem.mp hx
  have hkM : k < M := by rw [hll] at hkl; exact hkl
  have hallfilled : ∀ a ∈ s.entry, (fun v : Int => decide (0 ≤ v)) a = true := by
    apply List.countP_eq_length.mp
    show filled s.entry = s.entry.length
    rw [hfc, hfull, hel]
  have hke : 0 ≤ s.entry.getD k (-1) := by
    rw [List.getD_eq_getElem _ _ (show k < s.entry.length by omega)]
    have := hallfilled (s.entry[k]) (List.getElem_mem _)
    simpa using this
  obtain ⟨p, hp, heq⟩ := hmem k hkM hke
  refine ⟨p, hp, ?_⟩
  rw [← hxk, ← heq, List.getD_eq_getElem _ _ hkl]

/-- Reduction of one loop step when the inner index wraps. -/
theorem popLoop_step_wrap (M : Nat) (B : List (BName × BackendRec)) (fuel i : Nat)
    (s : PopState) (h : B[i]? = none) :
    popLoop M B (fuel + 1) i s = popLoop M B fuel 0 s := by
  rw [popLoop_succ, h]

/-- Reduction of one loop step that fills a slot. -/
theorem popLoop_step_fill (M : Nat) (B : List (BName × BackendRec)) (fuel i : Nat)
    (s : PopState) (p : BName × BackendRec) (j : Nat) (hp : B[i]? = some p)
    (hf : findCand M s.entry p.2 (s.next.getD i 0) M = some j) :
    popLoop M B (fuel + 1) i s =
      (if s.n + 1 = M then some (s.lookup.set (permAt M p.2 j) p.1)
       else popLoop M B fuel (i + 1)
         ⟨s.entry.set (permAt M p.2 j) (Int.ofNat i),
          s.lookup.set (permAt M p.2 j) p.1,
          s.next.set i (j + 1), s.n + 1⟩) := by
  rw [popLoop_succ, hp]
  show (match findCand M s.entry p.2 (s.next.getD i 0) M with
    | none => none
    | some j =>
      let c := permAt M p.2 j
      let s2 : PopState :=
        ⟨s.entry.set c (Int.ofNat i), s.lookup.set c p.1,
         s.next.set i (j + 1), s.n + 1⟩
      if s2.n = M then some s2.lookup else popLoop M B fuel (i + 1) s2) = _
  rw [hf]

/-- Reduction of one loop step whose candidate scan finds nothing. -/
theorem popLoop_step_stuck (M : Nat) (B : List (BName × BackendRec)) (fuel i : Nat)
    (s : PopState) (p : BName × BackendRec) (hp : B[i]? = some p)
    (hf : findCand M s.entry p.2 (s.next.getD i 0) M = none) :
    popLoop M B (fuel + 1) i s = none := by
  rw [popLoop_succ, hp]
  show (match findCand M s.entry p.2 (s.next.getD i 0) M with
    | none => none
    | some j =>
      let c := permAt M p.2 j
      let s2 : PopState :=
        ⟨s.entry.set c (Int.ofNat i), s.lookup.set c p.1,
         s.next.set i (j + 1), s.n + 1⟩
      if s2.n = M then some s2.lookup else popLoop M B fuel (i + 1) s2) = _
  rw [hf]

/-- Partial correctness of the population loop: whenever it returns a
table, the table has length `M` and every slot holds the name of a
current backend. -/
theorem popLoop_sound (M : Nat) (B : List (BName × BackendRec)) (hM : 0 < M) :
    ∀ fuel i s, InvPop M B s → ∀ lk, popLoop M B fuel i s = some lk →
      lk.length = M ∧ ∀ x ∈ lk, ∃ p, p ∈ B ∧ x = p.1 := by
  intro fuel
  induction fuel with
  | zero =>
    intro i s _ lk h
    rw [show popLoop M B 0 i s = none from rfl] at h
    cases h
  | succ fuel ih =>
    intro i s hInv lk h
    obtain ⟨hel, hll, hcnt, hmem⟩ := hInv
    cases hBi : B[i]? with
    | none =>
      rw [popLoop_step_wrap M B fuel i s hBi] at h
      exact ih 0 s ⟨hel, hll, hcnt, hmem⟩ lk h
    | some p =>
      cases hfc : findCand M s.entry p.2 (s.next.getD i 0) M with
      | none =>
        rw [popLoop_step_stuck M B fuel i s p hBi hfc] at h
        cases h
      | some j =>
        obtain ⟨hiB, hBip⟩ := List.getElem?_eq_some.mp hBi
        have hpB : p ∈ B := hBip ▸ List.getElem_mem hiB
        have hjfree := findCand_sound M s.entry p.2 M (s.next.getD i 0) j hfc
        have hcM : permAt M p.2 j < M := Nat.mod_lt _ hM
        have hInv2 : InvPop M B
            ⟨s.entry.set (permAt M p.2 j) (Int.ofNat i),
             s.lookup.set (permAt M p.2 j) p.1,
             s.next.set i (j + 1), s.n + 1⟩ := by
          refine ⟨by simp [hel], by simp [hll], ?_, ?_⟩
          · show filled (s.entry.set (permAt M p.2 j) (Int.ofNat i)) = s.n + 1
            rw [filled_set_free s.entry (permAt M p.2 j) (Int.ofNat i) (by omega)
              hjfree (Int.ofNat_nonneg i), hcnt]
          · intro k hkM hk
            by_cases hkc : k = permAt M p.2 j
            · subst hkc
              exact ⟨p, hpB, getD_set_self_names s.lookup _ p.1 [] (by omega)⟩
            · have hne : permAt M p.2 j ≠ k := fun hx => hkc hx.symm
              rw [show (⟨s.entry.set (permAt M p.2 j) (Int.ofNat i),
                  s.lookup.set (permAt M p.2 j) p.1, s.next.set i (j + 1),
                  s.n + 1⟩ : PopState).entry =
                  s.entry.set (permAt M p.2 j) (Int.ofNat i) from rfl,
                getD_set_ne s.entry _ k _ _ hne] at hk
              obtain ⟨p2, hp2, heq⟩ := hmem k hkM hk
              refine ⟨p2, hp2, ?_⟩
              rw [show (⟨s.entry.set (permAt M p.2 j) (Int.ofNat i),
                  s.lookup.set (permAt M p.2 j) p.1, s.next.set i (j + 1),
                  s.n + 1⟩ : PopState).lookup =
                  s.lookup.set (permAt M p.2 j) p.1 from rfl,
                getD_set_ne_names s.lookup _ k _ _ hne]
              exact heq
        rw [popLoop_step_fill M B fuel i s p j hBi hfc] at h
        by_cases hfull : s.n + 1 = M
        · rw [if_pos hfull] at h
          injection h with h
          subst h
          exact ⟨by simp [hll], full_lookup_mem M B _ hInv2 hfull⟩
        · rw [if_neg hfull] at h
          exact ih (i + 1) _ hInv2 lk h

theorem mem_insertById (p q : BName × BackendRec) (l : List (BName × BackendRec)) :
    q ∈ insertById p l ↔ q = p ∨ q ∈ l := by
  induction l with
  | nil => simp [insertById]
  | cons r rest ih =>
    by_cases h : p.2.id < r.2.id
    · simp [insertById, h]
    · simp only [insertById]
      rw [if_neg h]
      simp only [List.mem_cons, ih]
      tauto

theorem length_insertById (p : BName × BackendRec) (l : List (BName × BackendRec)) :
    (insertById p l).length = l.length + 1 := by
  induction l with
  | nil => rfl
  | cons r rest ih =>
    by_cases h : p.2.id < r.2.id <;> simp [insertById, h, ih]

theorem mem_sortById (q : BName × BackendRec) (bs : List (BName × BackendRec)) :
    q ∈ sortById bs ↔ q ∈ bs := by
  induction bs with
  | nil => simp [sortById]
  | cons p rest ih =>
    simp only [sortById, mem_insertById, ih, List.mem_cons]

theorem length_sortById (bs : List (BName × BackendRec)) :
    (sortById bs).length = bs.length := by
  induction bs with
  | nil => rfl
  | cons p rest ih => simp [sortById, length_insertById, ih]

/-- The freshly initialized arrays satisfy the loop invariant. -/
theorem invPop_init (M nB : Nat) (B : List (BName × BackendRec)) :
    InvPop M B (initPop M nB) := by
  refine ⟨by simp [initPop], by simp [initPop], ?_, ?_⟩
  · show filled (List.replicate M (-1)) = 0
    simp [filled, List.countP_replicate]
  · intro k hkM hk
    exfalso
    rw [show (initPop M nB).entry = List.replicate M (-1) from rfl,
      List.getD_eq_getElem _ _ (by simpa using hkM), List.getElem_replicate] at hk
    omega

/-- Partial correctness of `computeLookupTable`: a returned table has
length `M` and holds only names of current backends. -/
theorem computeLookupTable_sound (M : Nat) (bs : List (BName × BackendRec))
    (hM : 0 < M) (lk : List BName) (h : computeLookupTable M bs = some lk) :
    lk.length = M ∧ ∀ x ∈ lk, ∃ p, p ∈ bs ∧ x = p.1 := by
  rw [computeLookupTable] at h
  obtain ⟨hlen, hmem⟩ := popLoop_sound M (sortById bs) hM (2 * M + 1) 0
    (initPop M (sortById bs).length)
    (invPop_init M (sortById bs).length (sortById bs)) lk h
  refine ⟨hlen, fun x hx => ?_⟩
  obtain ⟨p, hp, heq⟩ := hmem x hx
  exact ⟨p, (mem_sortById p bs).mp hp, heq⟩

/-- Well-formedness of a `CHash` state: prime size, skips as produced by
`Add` (in `[1, M-1]`), nonempty backend names (the spec data model requires
nonempty names), and a cached lookup of full length only holds names of
current backends (as established by every mutation that returns). -/
@[reducible] def ChashInv (c : CHash) : Prop :=
  c.size.Prime ∧
  (∀ p ∈ c.backends, 1 ≤ p.2.skip ∧ p.2.skip < c.size) ∧
  (∀ p ∈ c.backends, p.1 ≠ []) ∧
  (c.lookup.length = c.size → ∀ x ∈ c.lookup, ∃ p, p ∈ c.backends ∧ x = p.1)

/-! ### C1: the uint32 wrap makes population hang on reachable inputs

With `M = 65537` a skip of 65536 is reachable
(`skip = crc32(name ++ "skip") mod 65536 + 1`), and since
`2^32 ≡ 1 (mod 65537)` the wrapped walk
`(offset + j·65536 mod 2^32) mod 65537` visits only 65536 of the 65537
slots, never `offset + 1`.  A single such backend can therefore fill at
most 65536 slots; once they are filled the inner candidate scan of
`computeLookupTable` never finds a free slot and Go's `Add`/`Hash` never
return. -/

/-- The wrapped walk of a backend with `skip = 65536` under `M = 65537`
never produces the slot `offset + 1` (for `offset < 65536`, so the uint32
sum does not itself wrap): the candidates are
`offset + 65536·(j mod 65536) (mod 65537) ≡ offset − (j mod 65536)`, and
`−s ≡ 1 (mod 65537)` has no solution with `s < 65536`. -/
theorem permAt_skip65536_misses (idv o : Nat) (ho : o < 65536) (j : Nat) :
    permAt 65537 ⟨idv, o, 65536⟩ j ≠ o + 1 := by
  intro h
  have h2 : mask32 (o + mask32 (mask32 j * 65536)) % 65537 = o + 1 := h
  have h1 : mask32 (mask32 j * 65536) = 65536 * (j % 65536) := by
    show (j % 4294967296 * 65536) % 4294967296 = 65536 * (j % 65536)
    rw [Nat.mod_mul_mod, Nat.mul_comm j 65536,
      show (4294967296 : Nat) = 65536 * 65536 from rfl, Nat.mul_mod_mul_left]
  have hs : j % 65536 < 65536 := Nat.mod_lt _ (by omega)
  rw [h1] at h2
  have h3 : mask32 (o + 65536 * (j % 65536)) = o + 65536 * (j % 65536) := by
    apply Nat.mod_eq_of_lt
    omega
  rw [h3] at h2
  have hdm := Nat.div_add_mod (o + 65536 * (j % 65536)) 65537
  rw [h2] at hdm
  omega

/-- If no backend's walk can ever produce the slot `miss`, that slot is
never filled, the filled count stays strictly below `M`, and the
population loop never reaches its `n == M` exit — at any fuel.  (In the
Go code the inner scan then spins forever once only unreachable slots
remain free.) -/
theorem popLoop_unreachable_slot_none (M : Nat) (B : List (BName × BackendRec))
    (miss : Nat) (hmissM : miss < M)
    (hmiss : ∀ p ∈ B, ∀ j, permAt M p.2 j ≠ miss) :
    ∀ fuel i s, s.entry.length = M → filled s.entry = s.n →
      ¬ 0 ≤ s.entry.getD miss (-1) →
      popLoop M B fuel i s = none := by
  intro fuel
  induction fuel with
  | zero => intro i s _ _ _; rfl
  | succ fuel ih =>
    intro i s hlen hcnt hfree
    cases hBi : B[i]? with
    | none =>
      rw [popLoop_step_wrap M B fuel i s hBi]
      exact ih 0 s hlen hcnt hfree
    | some p =>
      obtain ⟨hiB, hBip⟩ := List.getElem?_eq_some.mp hBi
      have hpB : p ∈ B := hBip ▸ List.getElem_mem hiB
      cases hfc : findCand M s.entry p.2 (s.next.getD i 0) M with
      | none => exact popLoop_step_stuck M B fuel i s p hBi hfc
      | some j =>
        have hjfree := findCand_sound M s.entry p.2 M (s.next.getD i 0) j hfc
        have hcmiss : permAt M p.2 j ≠ miss := hmiss p hpB j
        have hcM : permAt M p.2 j < M := Nat.mod_lt _ (by omega)
        rw [popLoop_step_fill M B fuel i s p j hBi hfc]
        have hlen2 : (s.entry.set (permAt M p.2 j) (Int.ofNat i)).length = M := by
          simp [hlen]
        have hcnt2 : filled (s.entry.set (permAt M p.2 j) (Int.ofNat i)) =
            s.n + 1 := by
          rw [filled_set_free s.entry (permAt M p.2 j) (Int.ofNat i) (by omega)
            hjfree (Int.ofNat_nonneg i), hcnt]
        have hfree2 : ¬ 0 ≤ (s.entry.set (permAt M p.2 j) (Int.ofNat i)).getD
            miss (-1) := by
          rw [getD_set_ne s.entry _ miss _ _ hcmiss]
          exact hfree
        have hne : ¬ (s.n + 1 = M) := by
          intro hM2
          have hall : ∀ a ∈ s.entry.set (permAt M p.2 j) (Int.ofNat i),
              (fun v : Int => decide (0 ≤ v)) a = true := by
            apply List.countP_eq_length.mp
            show filled (s.entry.set (permAt M p.2 j) (Int.ofNat i)) = _
            rw [hcnt2, hM2, hlen2]
          apply hfree2
          have hlt : miss < (s.entry.set (permAt M p.2 j) (Int.ofNat i)).length := by
            rw [hlen2]; exact hmissM
          rw [List.getD_eq_getElem _ _ hlt]
          have hx := hall ((s.entry.set (permAt M p.2 j) (Int.ofNat i))[miss])
            (List.getElem_mem hlt)
          simpa using hx
        rw [if_neg hne]
        exact ih (i + 1) _ hlen2 hcnt2 hfree2

/-- The backend name `"fwim"`: under `M = 65537` its record computed by
`Add` is `{id: 0, offset: 59616, skip: 65536}`
(`crc32("fwimskip") mod 65536 + 1 = 65536`). -/
def wrapBadName : BName := [102, 119, 105, 109]

/-- `chashAdd` unfolded on its components (stated on variables so that it
follows by pure structural unfolding). -/
theorem chashAdd_eq_map (c : CHash) (names : List BName) :
    chashAdd c names =
      (computeLookupTable c.size (addNames c.size c.backends names)).map
        (fun lk => ⟨c.size, addNames c.size c.backends names, lk⟩) := rfl

/-- `computeLookupTable` unfolded on its components. -/
theorem computeLookupTable_eq_popLoop (M : Nat) (bs : List (BName × BackendRec)) :
    computeLookupTable M bs =
      popLoop M (sortById bs) (2 * M + 1) 0 (initPop M (sortById bs).length) := rfl

set_option maxRecDepth 20000 in
/-- C1 (refuted): because `permutationAt`'s uint32 arithmetic wraps, a
reachable backend set makes the synchronous population hang instead of
serving.  Adding the single backend `"fwim"` to a fresh `M = 65537` table
gives it skip 65536; its wrapped walk never reaches slot
`offset + 1 = 59617`, so the population loop never reaches its `n == M`
exit at any fuel, and `Add` (and a subsequent cold `Hash`) never returns —
no name, member or otherwise, is ever served for this nonempty backend
set. -/
theorem c1_wrap_makes_population_hang :
    mkRec 65537 0 wrapBadName = ⟨0, 59616, 65536⟩ ∧
    (∀ fuel i, popLoop 65537 [(wrapBadName, ⟨0, 59616, 65536⟩)] fuel i
      (initPop 65537 1) = none) ∧
    chashAdd (newConsistentHash 65537) [wrapBadName] = none := by
  have hrec : mkRec 65537 0 wrapBadName = ⟨0, 59616, 65536⟩ := by decide
  have hb : 59617 < (List.replicate 65537 (-1 : Int)).length := by
    rw [List.length_replicate]
    omega
  have hdiv : ∀ fuel i, popLoop 65537 [(wrapBadName, ⟨0, 59616, 65536⟩)] fuel i
      (initPop 65537 1) = none := by
    intro fuel i
    apply popLoop_unreachable_slot_none 65537 _ 59617 (by omega) ?_ fuel i _
      ?_ ?_ ?_
    · intro p hp j
      have hpeq : p = (wrapBadName, ⟨0, 59616, 65536⟩) := List.mem_singleton.mp hp
      rw [hpeq]
      exact permAt_skip65536_misses 0 59616 (by omega) j
    · exact List.length_replicate 65537 (-1)
    · show List.countP (fun v : Int => decide (0 ≤ v))
        (List.replicate 65537 (-1)) = 0
      rw [List.countP_replicate]
      rfl
    · show ¬ 0 ≤ (List.replicate 65537 (-1 : Int)).getD 59617 (-1)
      rw [List.getD_eq_getElem _ _ hb, List.getElem_replicate]
      omega
  refine ⟨hrec, hdiv, ?_⟩
  rw [chashAdd_eq_map]
  rw [show addNames (newConsistentHash 65537).size (newConsistentHash 65537).backends
      [wrapBadName] = [(wrapBadName, mkRec 65537 0 wrapBadName)] from rfl, hrec]
  rw [computeLookupTable_eq_popLoop]
  rw [show sortById [(wrapBadName, (⟨0, 59616, 65536⟩ : BackendRec))] =
      [(wrapBadName, (⟨0, 59616, 65536⟩ : BackendRec))] from rfl]
  rw [show ([(wrapBadName, (⟨0, 59616, 65536⟩ : BackendRec))] :
      List (BName × BackendRec)).length = 1 from rfl]
  rw [show (newConsistentHash 65537).size = 65537 from rfl]
  rw [hdiv]
  rfl

/-! ## health_monitor

Backend and notification names/URLs are Lean `String`s.  Durations
(`time.Duration`) are `Nat` (all configured values are non-negative);
thresholds and streaks are `Int`.  Channel sends are modelled as emitted
notification lists; a send on an enabled channel appends one element.

The file `backend.go` (defining `Backend.fail`, `Backend.success`,
`Backend.toNoti`, `indefinite` and the `BackendConfig` struct) is not
under src/; only its callers are.  Those definitions are modelled from the
spec below and marked as such. -/

/-- The probe protocol (health_monitor/config.go). -/
inductive Protocol where
  | http
  | https
  | tcp
  | icmp
deriving DecidableEq, Repr

/-- Modelled from the spec: the `BackendConfig` struct is defined in the
missing `backend.go`; its fields are those read and written by
`healthMonitorImpl.Add` and `healthcheck` (name, url, protocol, timeout,
accept-status-code patterns, per-backend thresholds).  A nil
`AcceptStatusCodes` slice is `none`; zero values are `0` / `""`. -/
structure BackendConfig where
  name : String
  url : String
  protocol : Protocol
  timeout : Nat
  acceptStatusCodes : Option (List String)
  unhealthyThreshold : Int
  healthyThreshold : Int
deriving DecidableEq, Repr

/-- The monitor-wide `Config` (health_monitor/config.go), restricted to
the fields the modelled operations read. -/
structure MonConfig where
  unhealthyThreshold : Int
  healthyThreshold : Int
  interval : Nat
  timeout : Nat
  acceptStatusCodes : List String
  healthyInitially : Bool
  enableHealthyChannel : Bool
  enableUnhealthyChannel : Bool
deriving DecidableEq, Repr

/-- Modelled from the spec: the `Backend` runtime record of the missing
`backend.go` — its construction in `Add` shows fields `Cfg` and `healthy`,
with `statusStreak` left at its zero value. -/
structure Backend where
  cfg : BackendConfig
  healthy : Bool
  statusStreak : Int
deriving DecidableEq, Repr

/-- The health notification record `{url, name, healthy, timestamp}`;
the timestamp is modelled by presence only. -/
structure HealthNoti where
  url : String
  name : String
  healthy : Bool
  timestamp : Option Unit
deriving DecidableEq, Repr

/-- Modelled from the spec: `Backend.toNoti()` without options — a
notification carrying the backend's current state and a present
timestamp. -/
def toNotiNow (be : Backend) : HealthNoti :=
  ⟨be.cfg.url, be.cfg.name, be.healthy, some ()⟩

/-- Modelled from the spec: `Backend.toNoti(indefinite())` — the terminal
notification with a null timestamp. -/
def toNotiIndefinite (be : Backend) : HealthNoti :=
  ⟨be.cfg.url, be.cfg.name, be.healthy, none⟩

/-- `outputChannels.sendHealthy`: emits iff the healthy channel is enabled. -/
def sendHealthy (cfg : MonConfig) (n : HealthNoti) : List HealthNoti :=
  if cfg.enableHealthyChannel then [n] else []

/-- `outputChannels.sendUnhealthy`: emits iff the unhealthy channel is enabled. -/
def sendUnhealthy (cfg : MonConfig) (n : HealthNoti) : List HealthNoti :=
  if cfg.enableUnhealthyChannel then [n] else []

/-- The monitor's backend map (`map[string]*Backend`) as an association
list with unique keys. -/
structure MonState where
  backends : List (String × Backend)
deriving DecidableEq, Repr

/-- Go map lookup on the monitor's backend map. -/
def lookupBE : List (String × Backend) → String → Option Backend
  | [], _ => none
  | (k, v) :: rest, n => if k = n then some v else lookupBE rest n

/-- Go map deletion on the monitor's backend map. -/
def removeBE : List (String × Backend) → String → List (String × Backend)
  | [], _ => []
  | (k, v) :: rest, n =>
    if k = n then removeBE rest n else (k, v) :: removeBE rest n

/-- The per-config validation pass of `healthMonitorImpl.Add` (first
loop): name then URL must be nonempty, the timeout is clamped to
`2·interval/3` (else inherits the monitor timeout when zero), and nil
accept-status-codes / zero thresholds inherit the monitor-wide values.
`defaults.Set` never fails on this struct and is the identity here. -/
def validateConfig (cfg : MonConfig) (bc : BackendConfig) : Except String BackendConfig :=
  if bc.name = "" then Except.error "backend name is required"
  else if bc.url = "" then Except.error "backend URL is required"
  else Except.ok { bc with
    timeout :=
      if bc.timeout > cfg.interval * 2 / 3 then cfg.interval * 2 / 3
      else if bc.timeout = 0 then cfg.timeout else bc.timeout,
    acceptStatusCodes := some (bc.acceptStatusCodes.getD cfg.acceptStatusCodes),
    unhealthyThreshold :=
      if bc.unhealthyThreshold = 0 then cfg.unhealthyThreshold else bc.unhealthyThreshold,
    healthyThreshold :=
      if bc.healthyThreshold = 0 then cfg.healthyThreshold else bc.healthyThreshold }

/-- The whole validation loop of `Add`: the first failing config aborts
the call before any state mutation. -/
def validateAll (cfg : MonConfig) : List BackendConfig → Except String (List BackendConfig)
  | [] => Except.ok []
  | bc :: rest =>
    match validateConfig cfg bc with
    | Except.error e => Except.error e
    | Except.ok v =>
      match validateAll cfg rest with
      | Except.error e => Except.error e
      | Except.ok vs => Except.ok (v :: vs)

/-- The insertion loop of `Add` (second loop, cannot fail): already
present names are skipped with a warning; new backends start with
`healthy = HealthyInitially` and zero streak, and an initial notification
is emitted on the matching enabled channel. -/
def insertBackends (cfg : MonConfig) :
    MonState → List HealthNoti → List HealthNoti → List BackendConfig →
    MonState × List HealthNoti × List HealthNoti
  | st, hn, un, [] => (st, hn, un)
  | st, hn, un, bc :: rest =>
    match lookupBE st.backends bc.name with
    | some _ => insertBackends cfg st hn un rest
    | none =>
      let be : Backend := ⟨bc, cfg.healthyInitially, 0⟩
      if be.healthy then
        insertBackends cfg ⟨st.backends ++ [(bc.name, be)]⟩
          (hn ++ sendHealthy cfg (toNotiNow be)) un rest
      else
        insertBackends cfg ⟨st.backends ++ [(bc.name, be)]⟩
          hn (un ++ sendUnhealthy cfg (toNotiNow be)) rest

/-- `healthMonitorImpl.Add`: validate the entire batch first, then insert;
returns the new state and the notifications emitted on the healthy and
unhealthy channels. -/
def monAdd (cfg : MonConfig) (st : MonState) (bcs : List BackendConfig) :
    Except String (MonState × List HealthNoti × List HealthNoti) :=
  match validateAll cfg bcs with
  | Except.error e => Except.error e
  | Except.ok vs => Except.ok (insertBackends cfg st [] [] vs)

/-- The monitor state after an `Add` call: on error Go returns before
touching `h.backends`, so the state is unchanged. -/
def runMonAdd (cfg : MonConfig) (st : MonState) (bcs : List BackendConfig) : MonState :=
  match monAdd cfg st bcs with
  | Except.ok (st2, _, _) => st2
  | Except.error _ => st

/-- `healthMonitorImpl.Remove`, processed name by name.  The third
component records whether the call hit the nil-pointer dereference in the
unknown-name branch: there Go evaluates `backend.Cfg.Url.String()` for the
log entry while `backend` is the nil `*Backend` from the failed map
lookup, which aborts the call (a runtime fault), leaving the
partially-mutated state behind. -/
def monRemove (cfg : MonConfig) : MonState → List String → MonState × List HealthNoti × Bool
  | st, [] => (st, [], false)
  | st, n :: rest =>
    match lookupBE st.backends n with
    | none => (st, [], true)
    | some be =>
      let notis := sendUnhealthy cfg (toNotiIndefinite be)
      match monRemove cfg ⟨removeBE st.backends be.cfg.name⟩ rest with
      | (st3, more, fault) => (st3, notis ++ more, fault)

/-- Modelled from the spec: `Backend.fail(threshold)` of the missing
`backend.go` (spec §4.3): if the streak is positive reset it to 0, then
decrement; when the streak equals `-threshold`, set `healthy = false` and
report this tick as newly unhealthy.  Returns the updated backend and the
`(healthy, newly)` pair the Go method returns. -/
def failGo (thr : Int) (be : Backend) : Backend × Bool × Bool :=
  let s1 : Int := (if 0 < be.statusStreak then 0 else be.statusStreak) - 1
  let h2 : Bool := if s1 = -thr then false else be.healthy
  (⟨be.cfg, h2, s1⟩, h2, decide (s1 = -thr))

/-- Modelled from the spec: `Backend.success(threshold)` (spec §4.3): if
the streak is negative reset it to 0, then increment; when the streak
equals `+threshold`, set `healthy = true` and report newly healthy. -/
def successGo (thr : Int) (be : Backend) : Backend × Bool × Bool :=
  let s1 : Int := (if be.statusStreak < 0 then 0 else be.statusStreak) + 1
  let h2 : Bool := if s1 = thr then true else be.healthy
  (⟨be.cfg, h2, s1⟩, h2, decide (s1 = thr))

/-- The timeout `healthcheck` passes to `doHttp`/`doTcp`/`doIcmp`
(health_monitor.go lines 345, 360, 362): the monitor-wide `h.cfg.Timeout`,
not the backend's own. -/
def healthcheckTimeout (cfg : MonConfig) (_be : Backend) : Nat := cfg.timeout

/-- The accept-status-code patterns `healthcheck` iterates over
(health_monitor.go line 349): the monitor-wide `h.cfg.AcceptStatusCodes`,
not the backend's own. -/
def healthcheckPatterns (cfg : MonConfig) (_be : Backend) : List String :=
  cfg.acceptStatusCodes

/-- The streak evaluation of `healthcheck` on a probe outcome
(`ok = (err == nil)`): failures use `h.cfg.UnhealthyThreshold` (lines 333,
367) and successes `h.cfg.HealthyThreshold` (line 373) — the monitor-wide
values, not the backend's own. -/
def healthcheckStep (cfg : MonConfig) (be : Backend) (ok : Bool) :
    Backend × Bool × Bool :=
  if ok then successGo cfg.healthyThreshold be else failGo cfg.unhealthyThreshold be

/-- Modelled from the spec (for comparison with `healthcheckStep`): the
evaluation §3/§4.3 mandates, using the backend's own effective
thresholds. -/
def healthcheckStepSpec (be : Backend) (ok : Bool) : Backend × Bool × Bool :=
  if ok then successGo be.cfg.healthyThreshold be
  else failGo be.cfg.unhealthyThreshold be

/-- The per-backend body of the ticker goroutine (health_monitor.go lines
165-174): a notification is sent only when `healthcheck` reports `newly`,
on the healthy channel when the new state is healthy and on the unhealthy
channel otherwise. -/
def tickEmit (cfg : MonConfig) (res : Backend × Bool × Bool) :
    List HealthNoti × List HealthNoti :=
  if res.2.2 then
    if res.2.1 then (sendHealthy cfg (toNotiNow res.1), [])
    else ([], sendUnhealthy cfg (toNotiNow res.1))
  else ([], [])

/-- Iterated probe outcomes against one backend (one probe per tick). -/
def runProbes (cfg : MonConfig) (be : Backend) (rs : List Bool) : Backend :=
  rs.foldl (fun b r => (healthcheckStep cfg b r).1) be

/-! ### C4: Add is all-or-nothing -/

theorem validateAll_error_of_invalid (cfg : MonConfig) :
    ∀ bcs : List BackendConfig, (∃ bc ∈ bcs, bc.name = "" ∨ bc.url = "") →
      ∃ e, validateAll cfg bcs = Except.error e := by
  intro bcs
  induction bcs with
  | nil => rintro ⟨bc, h, _⟩; cases h
  | cons bc rest ih =>
    rintro ⟨bc2, hmem, hbad⟩
    by_cases h1 : bc.name = ""
    · exact ⟨"backend name is required", by simp [validateAll, validateConfig, h1]⟩
    · by_cases h2 : bc.url = ""
      · exact ⟨"backend URL is required", by simp [validateAll, validateConfig, h1, h2]⟩
      · have hmem2 : bc2 ∈ rest := by
          rcases List.mem_cons.mp hmem with heq | hm
          · subst heq
            rcases hbad with hb | hb
            · exact absurd hb h1
            · exact absurd hb h2
          · exact hm
        obtain ⟨e, he⟩ := ih ⟨bc2, hmem2, hbad⟩
        exact ⟨e, by simp [validateAll, validateConfig, h1, h2, he]⟩

/-- C4: `Add` validates the whole batch before mutating anything: if any
config in the batch has an empty name or URL, the call returns an error
and the monitor state is unchanged — no backend from the batch is added.
Valid configs are normalized by clamping the timeout to `2·interval/3`
and inheriting monitor-wide defaults for absent values. -/
theorem c4_add_all_or_nothing (cfg : MonConfig) (st : MonState)
    (bcs : List BackendConfig) (h : ∃ bc ∈ bcs, bc.name = "" ∨ bc.url = "") :
    (∃ e, monAdd cfg st bcs = Except.error e) ∧ runMonAdd cfg st bcs = st ∧
    (∀ bc : BackendConfig, bc.name ≠ "" → bc.url ≠ "" →
      validateConfig cfg bc = Except.ok { bc with
        timeout :=
          if bc.timeout > cfg.interval * 2 / 3 then cfg.interval * 2 / 3
          else if bc.timeout = 0 then cfg.timeout else bc.timeout,
        acceptStatusCodes := some (bc.acceptStatusCodes.getD cfg.acceptStatusCodes),
        unhealthyThreshold :=
          if bc.unhealthyThreshold = 0 then cfg.unhealthyThreshold
          else bc.unhealthyThreshold,
        healthyThreshold :=
          if bc.healthyThreshold = 0 then cfg.healthyThreshold
          else bc.healthyThreshold }) := by
  obtain ⟨e, he⟩ := validateAll_error_of_invalid cfg bcs h
  refine ⟨⟨e, by simp [monAdd, he]⟩, by simp [runMonAdd, monAdd, he], ?_⟩
  intro bc hn hu
  simp [validateConfig, hn, hu]

/-- Closed witness for `c4_add_all_or_nothing`: a batch with one valid and
one empty-name config leaves the monitor unchanged. -/
theorem c4_add_all_or_nothing_witness :
    (∃ e, monAdd ⟨3, 2, 30, 5, ["2.+"], true, true, true⟩ ⟨[]⟩
      [⟨"b1", "http://b1", Protocol.http, 0, none, 0, 0⟩,
       ⟨"", "http://b2", Protocol.http, 0, none, 0, 0⟩] = Except.error e) ∧
    runMonAdd ⟨3, 2, 30, 5, ["2.+"], true, true, true⟩ ⟨[]⟩
      [⟨"b1", "http://b1", Protocol.http, 0, none, 0, 0⟩,
       ⟨"", "http://b2", Protocol.http, 0, none, 0, 0⟩] = ⟨[]⟩ := by
  have h := c4_add_all_or_nothing ⟨3, 2, 30, 5, ["2.+"], true, true, true⟩ ⟨[]⟩
    [⟨"b1", "http://b1", Protocol.http, 0, none, 0, 0⟩,
     ⟨"", "http://b2", Protocol.http, 0, none, 0, 0⟩]
    ⟨⟨"", "http://b2", Protocol.http, 0, none, 0, 0⟩, by decide, Or.inl rfl⟩
  exact ⟨h.1, h.2.1⟩

/-! ### C5: Remove of an unknown name dereferences a nil record -/

/-- C5 (refuted): a `Remove` call whose first name is unknown does not
complete with a warning — the unknown-name branch evaluates
`backend.Cfg.Url.String()` on the nil `*Backend` returned by the failed
map lookup, a nil-pointer dereference fault, before any later (present)
name can be processed. -/
theorem c5_remove_unknown_name_faults (cfg : MonConfig) (st : MonState)
    (n : String) (rest : List String) (h : lookupBE st.backends n = none) :
    monRemove cfg st (n :: rest) = (st, [], true) := by
  simp [monRemove, h]

/-- Closed witness for `c5_remove_unknown_name_faults`: removing the
unknown name `"ghost"` (followed by the present name `"a"`) faults and
removes nothing. -/
theorem c5_remove_unknown_name_faults_witness :
    monRemove ⟨3, 2, 30, 5, ["2.+"], true, true, true⟩
      ⟨[("a", ⟨⟨"a", "http://a", Protocol.http, 5, none, 3, 2⟩, true, 0⟩)]⟩
      ["ghost", "a"] =
    (⟨[("a", ⟨⟨"a", "http://a", Protocol.http, 5, none, 3, 2⟩, true, 0⟩)]⟩,
     [], true) :=
  c5_remove_unknown_name_faults _ _ "ghost" ["a"] (by decide)

/-! ### C6: Remove emits exactly one terminal notification -/

/-- C6: removing a present backend emits exactly one notification on the
unhealthy channel when that channel is enabled (none otherwise), with a
null timestamp, regardless of the backend's prior healthy state, and
deletes the backend from the map. -/
theorem c6_remove_emits_one_terminal_noti (cfg : MonConfig) (st : MonState)
    (n : String) (be : Backend) (h : lookupBE st.backends n = some be) :
    monRemove cfg st [n] =
      (⟨removeBE st.backends be.cfg.name⟩,
       if cfg.enableUnhealthyChannel then [toNotiIndefinite be] else [], false) ∧
    (toNotiIndefinite be).timestamp = none ∧
    (toNotiIndefinite be).name = be.cfg.name := by
  refine ⟨?_, rfl, rfl⟩
  simp [monRemove, h, sendUnhealthy]

/-- Closed witness for `c6_remove_emits_one_terminal_noti`: removing the
healthy backend `"a"` emits one null-timestamp notification. -/
theorem c6_remove_emits_one_terminal_noti_witness :
    monRemove ⟨3, 2, 30, 5, ["2.+"], true, true, true⟩
      ⟨[("a", ⟨⟨"a", "http://a", Protocol.http, 5, none, 3, 2⟩, true, 0⟩)]⟩
      ["a"] =
      (⟨[]⟩, [⟨"http://a", "a", true, none⟩], false) ∧
    (toNotiIndefinite ⟨⟨"a", "http://a", Protocol.http, 5, none, 3, 2⟩, true, 0⟩).timestamp = none := by
  have h := c6_remove_emits_one_terminal_noti
    ⟨3, 2, 30, 5, ["2.+"], true, true, true⟩
    ⟨[("a", ⟨⟨"a", "http://a", Protocol.http, 5, none, 3, 2⟩, true, 0⟩)]⟩
    "a" ⟨⟨"a", "http://a", Protocol.http, 5, none, 3, 2⟩, true, 0⟩ (by decide)
  refine ⟨?_, h.2.1⟩
  rw [h.1]
  decide

/-! ### C9: newly added backends start at HealthyInitially with an initial
notification -/

theorem lookupBE_append_single (l : List (String × Backend)) (k : String)
    (v : Backend) (n : String) :
    lookupBE (l ++ [(k, v)]) n =
      match lookupBE l n with
      | some b => some b
      | none => if k = n then some v else none := by
  induction l with
  | nil => simp [lookupBE]
  | cons p rest ih =>
    by_cases h : p.1 = n <;> simp [lookupBE, h, ih]

/-- The notification accumulators of the insertion loop only grow. -/
theorem insertBackends_notis_mono (cfg : MonConfig) :
    ∀ (vs : List BackendConfig) (st : MonState) (hn un : List HealthNoti),
      (∀ x ∈ hn, x ∈ (insertBackends cfg st hn un vs).2.1) ∧
      (∀ x ∈ un, x ∈ (insertBackends cfg st hn un vs).2.2) := by
  intro vs
  induction vs with
  | nil =>
    intro st hn un
    exact ⟨fun x hx => by simpa [insertBackends] using hx,
           fun x hx => by simpa [insertBackends] using hx⟩
  | cons bc rest ih =>
    intro st hn un
    cases hl : lookupBE st.backends bc.name with
    | some b =>
      have heq : insertBackends cfg st hn un (bc :: rest) =
          insertBackends cfg st hn un rest := by
        simp [insertBackends, hl]
      rw [heq]
      exact ih st hn un
    | none =>
      by_cases hh : cfg.healthyInitially
      · have heq : insertBackends cfg st hn un (bc :: rest) =
            insertBackends cfg ⟨st.backends ++ [(bc.name, ⟨bc, cfg.healthyInitially, 0⟩)]⟩
              (hn ++ sendHealthy cfg (toNotiNow ⟨bc, cfg.healthyInitially, 0⟩)) un rest := by
          simp [insertBackends, hl, hh]
        rw [heq]
        obtain ⟨h1, h2⟩ := ih ⟨st.backends ++ [(bc.name, ⟨bc, cfg.healthyInitially, 0⟩)]⟩
          (hn ++ sendHealthy cfg (toNotiNow ⟨bc, cfg.healthyInitially, 0⟩)) un
        exact ⟨fun x hx => h1 x (by simp [hx]), h2⟩
      · have heq : insertBackends cfg st hn un (bc :: rest) =
            insertBackends cfg ⟨st.backends ++ [(bc.name, ⟨bc, cfg.healthyInitially, 0⟩)]⟩
              hn (un ++ sendUnhealthy cfg (toNotiNow ⟨bc, cfg.healthyInitially, 0⟩)) rest := by
          simp [insertBackends, hl, hh]
        rw [heq]
        obtain ⟨h1, h2⟩ := ih ⟨st.backends ++ [(bc.name, ⟨bc, cfg.healthyInitially, 0⟩)]⟩
          hn (un ++ sendUnhealthy cfg (toNotiNow ⟨bc, cfg.healthyInitially, 0⟩))
        exact ⟨h1, fun x hx => h2 x (by simp [hx])⟩

/-- Every backend present after the insertion loop was either present
before, or is a fresh backend with `healthy = HealthyInitially`, zero
streak, and an initial notification on the matching enabled channel. -/
theorem insertBackends_spec (cfg : MonConfig) :
    ∀ (vs : List BackendConfig) (st : MonState) (hn un : List HealthNoti)
      (name : String) (be : Backend),
      lookupBE (insertBackends cfg st hn un vs).1.backends name = some be →
      lookupBE st.backends name = some be ∨
      (be.healthy = cfg.healthyInitially ∧ be.statusStreak = 0 ∧
        (cfg.healthyInitially = true → cfg.enableHealthyChannel = true →
          toNotiNow be ∈ (insertBackends cfg st hn un vs).2.1) ∧
        (cfg.healthyInitially = false → cfg.enableUnhealthyChannel = true →
          toNotiNow be ∈ (insertBackends cfg st hn un vs).2.2)) := by
  intro vs
  induction vs with
  | nil =>
    intro st hn un name be h
    left
    simpa [insertBackends] using h
  | cons bc rest ih =>
    intro st hn un name be h
    cases hl : lookupBE st.backends bc.name with
    | some b =>
      have heq : insertBackends cfg st hn un (bc :: rest) =
          insertBackends cfg st hn un rest := by
        simp [insertBackends, hl]
      rw [heq] at h ⊢
      exact ih st hn un name be h
    | none =>
      by_cases hh : cfg.healthyInitially
      · have heq : insertBackends cfg st hn un (bc :: rest) =
            insertBackends cfg ⟨st.backends ++ [(bc.name, ⟨bc, cfg.healthyInitially, 0⟩)]⟩
              (hn ++ sendHealthy cfg (toNotiNow ⟨bc, cfg.healthyInitially, 0⟩)) un rest := by
          simp [insertBackends, hl, hh]
        rw [heq] at h ⊢
        rcases ih _ _ _ name be h with hold | hnew
        · rw [lookupBE_append_single] at hold
          cases hst : lookupBE st.backends name with
          | some b2 =>
            rw [hst] at hold
            exact Or.inl hold
          | none =>
            rw [hst] at hold
            by_cases hbn : bc.name = name
            · rw [if_pos hbn] at hold
              injection hold with hbe
              right
              refine ⟨by rw [← hbe], by rw [← hbe], ?_, ?_⟩
              · intro _ hen
                apply (insertBackends_notis_mono cfg rest _ _ _).1
                rw [← hbe]
                simp [sendHealthy, hen]
              · intro hfalse _
                rw [hfalse] at hh
                cases hh
            · rw [if_neg hbn] at hold
              cases hold
        · exact Or.inr hnew
      · have heq : insertBackends cfg st hn un (bc :: rest) =
            insertBackends cfg ⟨st.backends ++ [(bc.name, ⟨bc, cfg.healthyInitially, 0⟩)]⟩
              hn (un ++ sendUnhealthy cfg (toNotiNow ⟨bc, cfg.healthyInitially, 0⟩)) rest := by
          simp [insertBackends, hl, hh]
        rw [heq] at h ⊢
        rcases ih _ _ _ name be h with hold | hnew
        · rw [lookupBE_append_single] at hold
          cases hst : lookupBE st.backends name with
          | some b2 =>
            rw [hst] at hold
            exact Or.inl hold
          | none =>
            rw [hst] at hold
            by_cases hbn : bc.name = name
            · rw [if_pos hbn] at hold
              injection hold with hbe
              right
              refine ⟨by rw [← hbe], by rw [← hbe], ?_, ?_⟩
              · intro htrue _
                rw [htrue] at hh
                cases hh rfl
              · intro _ hen
                apply (insertBackends_notis_mono cfg rest _ _ _).2
                rw [← hbe]
                simp [sendUnhealthy, hen]
            · rw [if_neg hbn] at hold
              cases hold
        · exact Or.inr hnew

/-- C9: every backend newly added by `Add` (absent before the call,
present after it) is created with `healthy = HealthyInitially` and
`statusStreak = 0`, and the initial notification carrying that state is
emitted on the matching channel when that channel is enabled. -/
theorem c9_add_initial_state_and_notification (cfg : MonConfig) (st : MonState)
    (bcs : List BackendConfig) (res : MonState × List HealthNoti × List HealthNoti)
    (hok : monAdd cfg st bcs = Except.ok res) (name : String) (be : Backend)
    (hfresh : lookupBE st.backends name = none)
    (hfound : lookupBE res.1.backends name = some be) :
    be.healthy = cfg.healthyInitially ∧ be.statusStreak = 0 ∧
    (cfg.healthyInitially = true → cfg.enableHealthyChannel = true →
      toNotiNow be ∈ res.2.1) ∧
    (cfg.healthyInitially = false → cfg.enableUnhealthyChannel = true →
      toNotiNow be ∈ res.2.2) := by
  cases hva : validateAll cfg bcs with
  | error e =>
    rw [monAdd, hva] at hok
    cases hok
  | ok vs =>
    rw [monAdd, hva] at hok
    injection hok with hok
    subst hok
    rcases insertBackends_spec cfg vs st [] [] name be hfound with hold | hnew
    · rw [hfresh] at hold
      cases hold
    · exact hnew

/-- Closed witness for `c9_add_initial_state_and_notification`: adding a
single valid backend to an empty monitor with `HealthyInitially = true`
yields a healthy zero-streak backend and one initial healthy
notification. -/
theorem c9_add_initial_state_and_notification_witness :
    (⟨⟨"b1", "http://b1", Protocol.http, 5, some ["2.+"], 3, 2⟩, true, 0⟩ : Backend).healthy = true ∧
    (⟨⟨"b1", "http://b1", Protocol.http, 5, some ["2.+"], 3, 2⟩, true, 0⟩ : Backend).statusStreak = 0 ∧
    toNotiNow ⟨⟨"b1", "http://b1", Protocol.http, 5, some ["2.+"], 3, 2⟩, true, 0⟩ ∈
      [(⟨"http://b1", "b1", true, some ()⟩ : HealthNoti)] := by
  have h := c9_add_initial_state_and_notification
    ⟨3, 2, 30, 5, ["2.+"], true, true, true⟩ ⟨[]⟩
    [⟨"b1", "http://b1", Protocol.http, 0, none, 0, 0⟩]
    (⟨[("b1", ⟨⟨"b1", "http://b1", Protocol.http, 5, some ["2.+"], 3, 2⟩, true, 0⟩)]⟩,
     [⟨"http://b1", "b1", true, some ()⟩], [])
    rfl "b1"
    ⟨⟨"b1", "http://b1", Protocol.http, 5, some ["2.+"], 3, 2⟩, true, 0⟩
    (by decide) (by decide)
  exact ⟨h.1, h.2.1, h.2.2.1 rfl rfl⟩

/-! ### C7: the hysteresis state machine -/

theorem runProbes_snoc (cfg : MonConfig) (be : Backend) (l : List Bool) (r : Bool) :
    runProbes cfg be (l ++ [r]) = (healthcheckStep cfg (runProbes cfg be l) r).1 := by
  simp [runProbes, List.foldl_append]

/-- A streak of `-m` (from a fresh backend) means the last `m` probes all
failed. -/
theorem runProbes_neg_streak (cfg : MonConfig) (be : Backend)
    (h0 : be.statusStreak = 0) :
    ∀ (rs : List Bool) (m : Nat), 0 < m →
      (runProbes cfg be rs).statusStreak = -(m : Int) →
      m ≤ rs.length ∧ ∀ r ∈ rs.drop (rs.length - m), r = false := by
  intro rs
  induction rs using List.reverseRecOn with
  | nil =>
    intro m hm h
    simp only [runProbes, List.foldl_nil] at h
    rw [h0] at h
    omega
  | append_singleton l r ih =>
    intro m hm h
    rw [runProbes_snoc] at h
    cases r with
    | true =>
      exfalso
      rw [show (healthcheckStep cfg (runProbes cfg be l) true).1.statusStreak =
          (if (runProbes cfg be l).statusStreak < 0 then 0
           else (runProbes cfg be l).statusStreak) + 1 from rfl] at h
      by_cases hneg : (runProbes cfg be l).statusStreak < 0
      · rw [if_pos hneg] at h
        omega
      · rw [if_neg hneg] at h
        omega
    | false =>
      rw [show (healthcheckStep cfg (runProbes cfg be l) false).1.statusStreak =
          (if 0 < (runProbes cfg be l).statusStreak then 0
           else (runProbes cfg be l).statusStreak) - 1 from rfl] at h
      by_cases hm1 : m = 1
      · subst hm1
        refine ⟨by simp, ?_⟩
        intro r2 hr2
        rw [show (l ++ [false]).length - 1 = l.length by simp,
          List.drop_left] at hr2
        simpa using hr2
      · by_cases hpos : 0 < (runProbes cfg be l).statusStreak
        · rw [if_pos hpos] at h
          omega
        · rw [if_neg hpos] at h
          have hstreak : (runProbes cfg be l).statusStreak = -((m - 1 : Nat) : Int) := by
            omega
          obtain ⟨hlen, hall⟩ := ih (m - 1) (by omega) hstreak
          refine ⟨by simp; omega, ?_⟩
          intro r2 hr2
          rw [show (l ++ [false]).length - m = l.length - (m - 1) by
              simp only [List.length_append, List.length_cons, List.length_nil]
              omega,
            List.drop_append_of_le_length (by omega)] at hr2
          rcases List.mem_append.mp hr2 with hin | hin
          · exact hall r2 hin
          · simpa using hin

/-- A streak of `+m` (from a fresh backend) means the last `m` probes all
succeeded. -/
theorem runProbes_pos_streak (cfg : MonConfig) (be : Backend)
    (h0 : be.statusStreak = 0) :
    ∀ (rs : List Bool) (m : Nat), 0 < m →
      (runProbes cfg be rs).statusStreak = (m : Int) →
      m ≤ rs.length ∧ ∀ r ∈ rs.drop (rs.length - m), r = true := by
  intro rs
  induction rs using List.reverseRecOn with
  | nil =>
    intro m hm h
    simp only [runProbes, List.foldl_nil] at h
    rw [h0] at h
    omega
  | append_singleton l r ih =>
    intro m hm h
    rw [runProbes_snoc] at h
    cases r with
    | false =>
      exfalso
      rw [show (healthcheckStep cfg (runProbes cfg be l) false).1.statusStreak =
          (if 0 < (runProbes cfg be l).statusStreak then 0
           else (runProbes cfg be l).statusStreak) - 1 from rfl] at h
      by_cases hpos : 0 < (runProbes cfg be l).statusStreak
      · rw [if_pos hpos] at h
        omega
      · rw [if_neg hpos] at h
        omega
    | true =>
      rw [show (healthcheckStep cfg (runProbes cfg be l) true).1.statusStreak =
          (if (runProbes cfg be l).statusStreak < 0 then 0
           else (runProbes cfg be l).statusStreak) + 1 from rfl] at h
      by_cases hm1 : m = 1
      · subst hm1
        refine ⟨by simp, ?_⟩
        intro r2 hr2
        rw [show (l ++ [true]).length - 1 = l.length by simp,
          List.drop_left] at hr2
        simpa using hr2
      · by_cases hneg : (runProbes cfg be l).statusStreak < 0
        · rw [if_pos hneg] at h
          omega
        · rw [if_neg hneg] at h
          have hstreak : (runProbes cfg be l).statusStreak = ((m - 1 : Nat) : Int) := by
            omega
          obtain ⟨hlen, hall⟩ := ih (m - 1) (by omega) hstreak
          refine ⟨by simp; omega, ?_⟩
          intro r2 hr2
          rw [show (l ++ [true]).length - m = l.length - (m - 1) by
              simp only [List.length_append, List.length_cons, List.length_nil]
              omega,
            List.drop_append_of_le_length (by omega)] at hr2
          rcases List.mem_append.mp hr2 with hin | hin
          · exact hall r2 hin
          · simpa using hin

/-- C7: the hysteresis machine: a failed probe first resets a positive
streak to 0 and then decrements, flipping `healthy` to `false` exactly
when the streak reaches `-threshold_unhealthy` (and reporting that tick as
newly unhealthy); a successful probe is dual with `+threshold_healthy`;
only `newly` ticks emit a notification; and from a fresh backend a streak
of `±m` certifies `m` trailing same-direction results, so no flip happens
before the threshold of consecutive same-direction results is reached. -/
theorem c7_hysteresis_state_machine (cfg : MonConfig) (be : Backend) :
    ((failGo cfg.unhealthyThreshold be).1.statusStreak =
      (if 0 < be.statusStreak then 0 else be.statusStreak) - 1) ∧
    ((failGo cfg.unhealthyThreshold be).2.2 = true ↔
      (failGo cfg.unhealthyThreshold be).1.statusStreak = -cfg.unhealthyThreshold) ∧
    ((failGo cfg.unhealthyThreshold be).1.healthy ≠ be.healthy →
      ((failGo cfg.unhealthyThreshold be).1.statusStreak = -cfg.unhealthyThreshold ∧
       (failGo cfg.unhealthyThreshold be).1.healthy = false)) ∧
    ((successGo cfg.healthyThreshold be).1.statusStreak =
      (if be.statusStreak < 0 then 0 else be.statusStreak) + 1) ∧
    ((successGo cfg.healthyThreshold be).2.2 = true ↔
      (successGo cfg.healthyThreshold be).1.statusStreak = cfg.healthyThreshold) ∧
    ((successGo cfg.healthyThreshold be).1.healthy ≠ be.healthy →
      ((successGo cfg.healthyThreshold be).1.statusStreak = cfg.healthyThreshold ∧
       (successGo cfg.healthyThreshold be).1.healthy = true)) ∧
    (∀ ok : Bool, (healthcheckStep cfg be ok).2.2 = false →
      tickEmit cfg (healthcheckStep cfg be ok) = ([], [])) ∧
    (be.statusStreak = 0 → ∀ (rs : List Bool) (m : Nat), 0 < m →
      ((runProbes cfg be rs).statusStreak = -(m : Int) →
        m ≤ rs.length ∧ ∀ r ∈ rs.drop (rs.length - m), r = false) ∧
      ((runProbes cfg be rs).statusStreak = (m : Int) →
        m ≤ rs.length ∧ ∀ r ∈ rs.drop (rs.length - m), r = true)) := by
  refine ⟨rfl, ?_, ?_, rfl, ?_, ?_, ?_, ?_⟩
  · show (decide ((if 0 < be.statusStreak then 0 else be.statusStreak) - 1 =
      -cfg.unhealthyThreshold) = true) ↔ _
    simp [failGo]
  · intro hflip
    by_cases hs : (if 0 < be.statusStreak then 0 else be.statusStreak) - 1 =
        -cfg.unhealthyThreshold
    · constructor
      · show (if 0 < be.statusStreak then 0 else be.statusStreak) - 1 = _
        exact hs
      · show (if (if 0 < be.statusStreak then 0 else be.statusStreak) - 1 =
          -cfg.unhealthyThreshold then false else be.healthy) = false
        rw [if_pos hs]
    · exfalso
      apply hflip
      show (if (if 0 < be.statusStreak then 0 else be.statusStreak) - 1 =
        -cfg.unhealthyThreshold then false else be.healthy) = be.healthy
      rw [if_neg hs]
  · show (decide ((if be.statusStreak < 0 then 0 else be.statusStreak) + 1 =
      cfg.healthyThreshold) = true) ↔ _
    simp [successGo]
  · intro hflip
    by_cases hs : (if be.statusStreak < 0 then 0 else be.statusStreak) + 1 =
        cfg.healthyThreshold
    · constructor
      · show (if be.statusStreak < 0 then 0 else be.statusStreak) + 1 = _
        exact hs
      · show (if (if be.statusStreak < 0 then 0 else be.statusStreak) + 1 =
          cfg.healthyThreshold then true else be.healthy) = true
        rw [if_pos hs]
    · exfalso
      apply hflip
      show (if (if be.statusStreak < 0 then 0 else be.statusStreak) + 1 =
        cfg.healthyThreshold then true else be.healthy) = be.healthy
      rw [if_neg hs]
  · intro ok hnew
    simp [tickEmit, hnew]
  · intro h0 rs m hm
    exact ⟨runProbes_neg_streak cfg be h0 rs m hm,
           runProbes_pos_streak cfg be h0 rs m hm⟩

/-- Closed witness for `c7_hysteresis_state_machine`: with unhealthy
threshold 3 from a fresh healthy backend, one failure yields streak −1 and
no transition, and a streak of −3 after three probes certifies three
trailing failures. -/
theorem c7_hysteresis_state_machine_witness :
    (failGo 3 ⟨⟨"a", "http://a", Protocol.http, 5, none, 3, 2⟩, true, 0⟩).1.statusStreak =
      (if (0 : Int) < 0 then 0 else 0) - 1 ∧
    (3 ≤ ([false, false, false] : List Bool).length ∧
      ∀ r ∈ ([false, false, false] : List Bool).drop
        (([false, false, false] : List Bool).length - 3), r = false) := by
  have h := c7_hysteresis_state_machine ⟨3, 2, 30, 5, ["2.+"], true, true, true⟩
    ⟨⟨"a", "http://a", Protocol.http, 5, none, 3, 2⟩, true, 0⟩
  exact ⟨h.1, ((h.2.2.2.2.2.2.2 rfl [false, false, false] 3 (by decide)).1 (by decide))⟩

/-! ### C8: healthcheck ignores the per-backend effective config -/

/-- C8 (refuted): `healthcheck` evaluates every probe with the
monitor-wide configuration — `h.cfg.Timeout` for the probe bound,
`h.cfg.AcceptStatusCodes` for status matching, and
`h.cfg.UnhealthyThreshold` / `h.cfg.HealthyThreshold` for the
transitions — ignoring the backend's own effective config that `Add`
computed.  Concretely, a backend with per-backend unhealthy threshold 1
under a monitor default of 3 stays healthy after a failed probe (streak
−1, no transition), whereas the spec-mandated per-backend evaluation
flips it to unhealthy. -/
theorem c8_healthcheck_uses_monitor_config :
    (∀ (cfg : MonConfig) (be : Backend),
      healthcheckTimeout cfg be = cfg.timeout ∧
      healthcheckPatterns cfg be = cfg.acceptStatusCodes ∧
      healthcheckStep cfg be false = failGo cfg.unhealthyThreshold be ∧
      healthcheckStep cfg be true = successGo cfg.healthyThreshold be) ∧
    (healthcheckStep ⟨3, 2, 30, 5, ["2.+"], true, false, false⟩
        ⟨⟨"a", "http://a", Protocol.http, 1, some ["200"], 1, 1⟩, true, 0⟩
        false).1.healthy = true ∧
    (healthcheckStep ⟨3, 2, 30, 5, ["2.+"], true, false, false⟩
        ⟨⟨"a", "http://a", Protocol.http, 1, some ["200"], 1, 1⟩, true, 0⟩
        false).2.2 = false ∧
    (healthcheckStepSpec
        ⟨⟨"a", "http://a", Protocol.http, 1, some ["200"], 1, 1⟩, true, 0⟩
        false).1.healthy = false ∧
    (healthcheckStepSpec
        ⟨⟨"a", "http://a", Protocol.http, 1, some ["200"], 1, 1⟩, true, 0⟩
        false).2.2 = true ∧
    healthcheckTimeout ⟨3, 2, 30, 5, ["2.+"], true, false, false⟩
        ⟨⟨"a", "http://a", Protocol.http, 1, some ["200"], 1, 1⟩, true, 0⟩ = 5 ∧
    healthcheckPatterns ⟨3, 2, 30, 5, ["2.+"], true, false, false⟩
        ⟨⟨"a", "http://a", Protocol.http, 1, some ["200"], 1, 1⟩, true, 0⟩ = ["2.+"] :=
  ⟨fun cfg be => ⟨rfl, rfl, rfl, rfl⟩, by decide, by decide, by decide, by decide,
   rfl, rfl⟩

/-! ### The `ChashInv` invariant holds for every reachable state -/

theorem mem_setRec (x : BName) (r : BackendRec) :
    ∀ (bs : List (BName × BackendRec)) (p : BName × BackendRec),
      p ∈ setRec bs x r → p ∈ bs ∨ p = (x, r) := by
  intro bs
  induction bs with
  | nil =>
    intro p hp
    simp [setRec] at hp
    exact Or.inr hp
  | cons q rest ih =>
    obtain ⟨a, b⟩ := q
    intro p hp
    by_cases h : a = x
    · rw [show setRec ((a, b) :: rest) x r = (a, r) :: rest by
        simp [setRec, h]] at hp
      rcases List.mem_cons.mp hp with heq | hm
      · right
        rw [heq, h]
      · exact Or.inl (List.mem_cons_of_mem _ hm)
    · rw [show setRec ((a, b) :: rest) x r = (a, b) :: setRec rest x r by
        simp [setRec, h]] at hp
      rcases List.mem_cons.mp hp with heq | hm
      · exact Or.inl (heq ▸ List.mem_cons_self _ rest)
      · rcases ih p hm with h1 | h2
        · exact Or.inl (List.mem_cons_of_mem _ h1)
        · exact Or.inr h2

theorem mem_addNames (M : Nat) :
    ∀ (names : List BName) (bs : List (BName × BackendRec)) (p : BName × BackendRec),
      p ∈ addNames M bs names →
      p ∈ bs ∨ (p.1 ∈ names ∧ ∃ len, p.2 = mkRec M len p.1) := by
  intro names
  induction names with
  | nil =>
    intro bs p hp
    exact Or.inl hp
  | cons n rest ih =>
    intro bs p hp
    rw [show addNames M bs (n :: rest) =
      addNames M (setRec bs n (mkRec M bs.length n)) rest from rfl] at hp
    rcases ih _ p hp with hin | ⟨hmem, len, hrec⟩
    · rcases mem_setRec n (mkRec M bs.length n) bs p hin with h1 | h2
      · exact Or.inl h1
      · right
        rw [h2]
        exact ⟨List.mem_cons_self n rest, bs.length, rfl⟩
    · exact Or.inr ⟨List.mem_cons_of_mem n hmem, len, hrec⟩

theorem mem_removeKey (n : BName) :
    ∀ (bs : List (BName × BackendRec)) (p : BName × BackendRec),
      p ∈ removeKey bs n → p ∈ bs := by
  intro bs
  induction bs with
  | nil => intro p hp; simp [removeKey] at hp
  | cons q rest ih =>
    obtain ⟨a, b⟩ := q
    intro p hp
    by_cases h : a = n
    · rw [show removeKey ((a, b) :: rest) n = removeKey rest n by
        simp [removeKey, h]] at hp
      exact List.mem_cons_of_mem _ (ih p hp)
    · rw [show removeKey ((a, b) :: rest) n = (a, b) :: removeKey rest n by
        simp [removeKey, h]] at hp
      rcases List.mem_cons.mp hp with heq | hm
      · exact heq ▸ List.mem_cons_self _ rest
      · exact List.mem_cons_of_mem _ (ih p hm)

theorem mem_removeNames :
    ∀ (names : List BName) (bs : List (BName × BackendRec)) (p : BName × BackendRec),
      p ∈ removeNames bs names → p ∈ bs := by
  intro names
  induction names with
  | nil => intro bs p hp; exact hp
  | cons n rest ih =>
    intro bs p hp
    exact mem_removeKey n bs p (ih (removeKey bs n) p hp)

/-- The skip computed by `Add` lies in `[1, M-1]`. -/
theorem mkRec_skip_bounds (M len : Nat) (x : BName) (hM : 2 ≤ M) :
    1 ≤ (mkRec M len x).skip ∧ (mkRec M len x).skip < M := by
  constructor
  · show 1 ≤ crc32 (x ++ skipBytes) % (M - 1) + 1
    omega
  · show crc32 (x ++ skipBytes) % (M - 1) + 1 < M
    have := Nat.mod_lt (crc32 (x ++ skipBytes)) (show 0 < M - 1 by omega)
    omega

/-- An empty backend map makes `computeLookupTable` return `none` at every
fuel (the Go loop hangs), so a `some` result certifies a nonempty map. -/
theorem computeLookupTable_nil (M : Nat) :
    computeLookupTable M [] = none := by
  rw [computeLookupTable]
  exact popLoop_empty_none M (2 * M + 1) 0 (initPop M (sortById []).length)

/-- `Add` preserves the invariant whenever it returns. -/
theorem chashAdd_preserves_inv (c c2 : CHash) (names : List BName)
    (hInv : ChashInv c) (hnm : ∀ n ∈ names, n ≠ ([] : BName))
    (hadd : chashAdd c names = some c2) : ChashInv c2 := by
  obtain ⟨hM, hskip, hname, _⟩ := hInv
  cases hct : computeLookupTable c.size (addNames c.size c.backends names) with
  | none =>
    rw [chashAdd, hct] at hadd
    cases hadd
  | some lk =>
    rw [chashAdd, hct] at hadd
    injection hadd with hadd
    subst hadd
    have hbounds : ∀ p ∈ addNames c.size c.backends names,
        1 ≤ p.2.skip ∧ p.2.skip < c.size := by
      intro p hp
      rcases mem_addNames c.size names c.backends p hp with hin | ⟨_, len, hrec⟩
      · exact hskip p hin
      · rw [hrec]
        exact mkRec_skip_bounds c.size len p.1 hM.two_le
    refine ⟨hM, hbounds, ?_, ?_⟩
    · intro p hp
      rcases mem_addNames c.size names c.backends p hp with hin | ⟨hmem, _, _⟩
      · exact hname p hin
      · exact hnm p.1 hmem
    · intro _ x hx
      obtain ⟨_, hmem2⟩ := computeLookupTable_sound c.size
        (addNames c.size c.backends names) hM.pos lk hct
      exact hmem2 x hx

/-- `Remove` preserves the invariant whenever it returns. -/
theorem chashRemove_preserves_inv (c c2 : CHash) (names : List BName)
    (hInv : ChashInv c) (hrem : chashRemove c names = some c2) : ChashInv c2 := by
  obtain ⟨hM, hskip, hname, _⟩ := hInv
  cases hct : computeLookupTable c.size (removeNames c.backends names) with
  | none =>
    rw [chashRemove, hct] at hrem
    cases hrem
  | some lk =>
    rw [chashRemove, hct] at hrem
    injection hrem with hrem
    subst hrem
    have hbounds : ∀ p ∈ removeNames c.backends names,
        1 ≤ p.2.skip ∧ p.2.skip < c.size := fun p hp =>
      hskip p (mem_removeNames names c.backends p hp)
    refine ⟨hM, hbounds,
      fun p hp => hname p (mem_removeNames names c.backends p hp), ?_⟩
    intro _ x hx
    obtain ⟨_, hmem2⟩ := computeLookupTable_sound c.size
      (removeNames c.backends names) hM.pos lk hct
    exact hmem2 x hx

/-- A fresh table of prime size satisfies the invariant. -/
theorem newConsistentHash_inv (size : Nat) (h : size.Prime) :
    ChashInv (newConsistentHash size) := by
  refine ⟨h, ?_, ?_, ?_⟩
  · intro p hp
    simp [newConsistentHash] at hp
  · intro p hp
    simp [newConsistentHash] at hp
  · intro hlen x hx
    simp [newConsistentHash] at hx
